import Mathlib

/-!
# Verification of the compressorx batch-compression core

A shallow embedding of the compressorx image-compression application:
the processing store (`src/stores/processing.store.ts`), the dimension /
ratio / quality helpers (`src/lib/utils/file-helpers.ts`,
`src/lib/compression/compressor.ts`, `src/workers/compression.worker.ts`),
the history store (`src/lib/storage/indexed-db.ts`) and the batch
scheduler hook (`useBatchProcessing`).

JavaScript numbers are modelled as exact rationals; code paths on which
non-finite values (NaN, ±Infinity) can actually arise — unguarded
division and the quality-clamping helper — are modelled with the
`JsVal` type, which represents a JS number as NaN, +Infinity, -Infinity
or a finite rational.  `Math.round x` is `⌊x + 1/2⌋` (JS rounds ties
toward +∞).
-/

namespace Compressorx

/-- JS `Math.round`: floor of `x + 1/2` (ties round toward `+∞`). -/
def jsRound (x : ℚ) : ℤ := ⌊x + 1 / 2⌋

/-- A JavaScript number: NaN, an infinity, or a finite (here: exact rational) value. -/
inductive JsVal where
  | nan : JsVal
  | posInf : JsVal
  | negInf : JsVal
  | num : ℚ → JsVal
deriving DecidableEq, Repr

/-- JS `Math.min` on two values (NaN-propagating). -/
def jsMin : JsVal → JsVal → JsVal
  | .nan, _ => .nan
  | _, .nan => .nan
  | .negInf, _ => .negInf
  | _, .negInf => .negInf
  | .posInf, b => b
  | a, .posInf => a
  | .num a, .num b => .num (min a b)

/-- JS `Math.max` on two values (NaN-propagating). -/
def jsMax : JsVal → JsVal → JsVal
  | .nan, _ => .nan
  | _, .nan => .nan
  | .posInf, _ => .posInf
  | _, .posInf => .posInf
  | .negInf, b => b
  | a, .negInf => a
  | .num a, .num b => .num (max a b)

/-- JS subtraction. -/
def jsSub : JsVal → JsVal → JsVal
  | .nan, _ => .nan
  | _, .nan => .nan
  | .posInf, .posInf => .nan
  | .posInf, _ => .posInf
  | .negInf, .negInf => .nan
  | .negInf, _ => .negInf
  | .num _, .posInf => .negInf
  | .num _, .negInf => .posInf
  | .num a, .num b => .num (a - b)

/-- JS multiplication. -/
def jsMul : JsVal → JsVal → JsVal
  | .nan, _ => .nan
  | _, .nan => .nan
  | .num a, .num b => .num (a * b)
  | .num a, .posInf => if a = 0 then .nan else if 0 < a then .posInf else .negInf
  | .num a, .negInf => if a = 0 then .nan else if 0 < a then .negInf else .posInf
  | .posInf, .num b => if b = 0 then .nan else if 0 < b then .posInf else .negInf
  | .negInf, .num b => if b = 0 then .nan else if 0 < b then .negInf else .posInf
  | .posInf, .posInf => .posInf
  | .posInf, .negInf => .negInf
  | .negInf, .posInf => .negInf
  | .negInf, .negInf => .posInf

/-- JS division (division by zero gives an infinity, `0/0` gives NaN). -/
def jsDiv : JsVal → JsVal → JsVal
  | .nan, _ => .nan
  | _, .nan => .nan
  | .num a, .num b =>
      if b = 0 then (if a = 0 then .nan else if 0 < a then .posInf else .negInf)
      else .num (a / b)
  | .num _, .posInf => .num 0
  | .num _, .negInf => .num 0
  | .posInf, .num b => if 0 ≤ b then .posInf else .negInf
  | .negInf, .num b => if 0 ≤ b then .negInf else .posInf
  | .posInf, _ => .nan
  | .negInf, _ => .nan

/-- JS `Math.round` lifted to `JsVal` (NaN and infinities are fixed points). -/
def jsRoundVal : JsVal → JsVal
  | .nan => .nan
  | .posInf => .posInf
  | .negInf => .negInf
  | .num x => .num (jsRound x)

/-- Output formats (`OutputFormat` in `src/types/image.types.ts`). -/
inductive OutputFormat where
  | jpeg : OutputFormat
  | png : OutputFormat
  | webp : OutputFormat
  | avif : OutputFormat
deriving DecidableEq, Repr

/-- `CompressionOptions` (`src/types/compression.types.ts`).  `maxWidth`,
`maxHeight` and `progressive` are optional fields; `quality` is a raw JS
number and may be non-finite before validation. -/
structure CompressionOptions where
  quality : JsVal
  format : OutputFormat
  maxWidth : Option ℚ := none
  maxHeight : Option ℚ := none
  maintainAspectRatio : Bool
  stripMetadata : Bool
  progressive : Option Bool := none
deriving DecidableEq, Repr

/-- JS truthiness of an optional numeric field: `undefined` and `0` are falsy. -/
def jsTruthy : Option ℚ → Bool
  | none => false
  | some x => decide (x ≠ 0)

/-- `maxWidth ? Math.min(v, maxWidth) : v` — the per-axis clamp used when
aspect ratio is not maintained. -/
def clampAxis (v : ℚ) : Option ℚ → ℚ
  | none => v
  | some m => if m = 0 then v else min v m

/-- `DimensionConstraints` (`src/lib/utils/file-helpers.ts`). -/
structure DimensionConstraints where
  maxWidth : Option ℚ := none
  maxHeight : Option ℚ := none
  maintainAspectRatio : Bool
deriving DecidableEq, Repr

/-- `OriginalDimensions` (`src/lib/utils/file-helpers.ts`). -/
structure OriginalDimensions where
  width : ℚ
  height : ℚ
deriving DecidableEq, Repr

/-- `calculateDimensions` (`src/lib/utils/file-helpers.ts`, lines 96-143):
zero/negative guard, no-constraint passthrough, independent clamp when the
aspect ratio is not maintained, otherwise the two-pass aspect-preserving
clamp followed by `Math.round`. -/
def calculateDimensions (original : OriginalDimensions) (options : DimensionConstraints) :
    ℚ × ℚ :=
  if original.width ≤ 0 ∨ original.height ≤ 0 then (0, 0)
  else if jsTruthy options.maxWidth = false ∧ jsTruthy options.maxHeight = false then
    (original.width, original.height)
  else if options.maintainAspectRatio = false then
    (clampAxis original.width options.maxWidth, clampAxis original.height options.maxHeight)
  else
    let aspectRatio := original.width / original.height
    let p1 : ℚ × ℚ :=
      match options.maxWidth with
      | some m => if m ≠ 0 ∧ m < original.width then (m, m / aspectRatio)
                  else (original.width, original.height)
      | none => (original.width, original.height)
    let p2 : ℚ × ℚ :=
      match options.maxHeight with
      | some m => if m ≠ 0 ∧ m < p1.2 then (m * aspectRatio, m) else p1
      | none => p1
    (((jsRound p2.1 : ℤ) : ℚ), ((jsRound p2.2 : ℤ) : ℚ))

/-- `calculateOutputDimensions` (`src/workers/compression.worker.ts`,
lines 40-76).  Identical to `calculateDimensions` except that it reads the
constraints from a `CompressionOptions` record and has NO zero/negative
input guard. -/
def calculateOutputDimensions (originalWidth originalHeight : ℚ)
    (options : CompressionOptions) : ℚ × ℚ :=
  if jsTruthy options.maxWidth = false ∧ jsTruthy options.maxHeight = false then
    (originalWidth, originalHeight)
  else if options.maintainAspectRatio = false then
    (clampAxis originalWidth options.maxWidth, clampAxis originalHeight options.maxHeight)
  else
    let aspectRatio := originalWidth / originalHeight
    let p1 : ℚ × ℚ :=
      match options.maxWidth with
      | some m => if m ≠ 0 ∧ m < originalWidth then (m, m / aspectRatio)
                  else (originalWidth, originalHeight)
      | none => (originalWidth, originalHeight)
    let p2 : ℚ × ℚ :=
      match options.maxHeight with
      | some m => if m ≠ 0 ∧ m < p1.2 then (m * aspectRatio, m) else p1
      | none => p1
    (((jsRound p2.1 : ℤ) : ℚ), ((jsRound p2.2 : ℤ) : ℚ))

/-- `calculateCompressionRatio` (`src/lib/utils/file-helpers.ts`, lines
157-168): guarded against non-positive original size, then the clamped
percentage saved. -/
def calculateCompressionRatio (originalSize compressedSize : ℚ) : ℚ :=
  if originalSize ≤ 0 then 0
  else max 0 (min 100 ((originalSize - compressedSize) / originalSize * 100))

/-- The compression-ratio computation inside the worker's `compressImage`
(`src/workers/compression.worker.ts`, lines 125-136):
`Math.max(0, Math.min(100, ((originalSize - compressedSize) / originalSize) * 100))`
with NO guard on `originalSize`, so division by zero can produce
`-Infinity` (clamped to 0) or NaN (`0/0`, which the clamp propagates). -/
def compressImageCompressionRatio (originalSize compressedSize : ℚ) : JsVal :=
  jsMax (.num 0) (jsMin (.num 100)
    (jsMul (jsDiv (jsSub (.num originalSize) (.num compressedSize)) (.num originalSize))
      (.num 100)))

/-- The ratio formula as the spec states it:
`clamp(((original − compressed) / original) × 100, 0, 100)`. -/
def ratioSpec (original compressed : ℚ) : ℚ :=
  max 0 (min 100 ((original - compressed) / original * 100))

/-- `clampQuality` (`src/lib/compression/compressor.ts`): NaN falls back to
the default quality 70, anything else is rounded and clamped into
`[0, 100]`. -/
def clampQuality (quality : JsVal) : JsVal :=
  match quality with
  | .nan => .num 70
  | q => jsMax (.num 0) (jsMin (.num 100) (jsRoundVal q))

/-- `validateCompressionOptions` (`src/lib/compression/compressor.ts`):
returns the options with the quality clamped, all other fields unchanged. -/
def validateCompressionOptions (options : CompressionOptions) : CompressionOptions :=
  { options with quality := clampQuality options.quality }

/-! ## Processing store (`src/stores/processing.store.ts`)

Item identifiers (UUID strings in the source) are modelled as naturals;
`Date.now()` timestamps are passed in explicitly as integer arguments. -/

/-- `MAX_CONCURRENT_PROCESSING` (`src/types/compression.types.ts`, line 99). -/
def MAX_CONCURRENT_PROCESSING : ℕ := 4

/-- Item lifecycle status (`'queued' | 'processing' | 'complete' | 'error'`). -/
inductive QueueStatus where
  | queued : QueueStatus
  | processing : QueueStatus
  | complete : QueueStatus
  | error : QueueStatus
deriving DecidableEq, Repr

/-- `ProcessingQueueItem` (`src/types/compression.types.ts`). -/
structure ProcessingQueueItem where
  id : ℕ
  imageId : ℕ
  status : QueueStatus
  progress : ℚ
  startTime : Option ℤ := none
  endTime : Option ℤ := none
deriving DecidableEq, Repr

/-- A `Partial<ProcessingQueueItem>` update as used by the store's callers:
each field is either absent (`none`, keep the old value) or present. -/
structure QueueItemUpdate where
  status : Option QueueStatus := none
  progress : Option ℚ := none
  startTime : Option ℤ := none
  endTime : Option ℤ := none
deriving DecidableEq, Repr

/-- The object-spread merge `\x7b ...item, ...updates \x7d`. -/
def applyUpdate (u : QueueItemUpdate) (item : ProcessingQueueItem) : ProcessingQueueItem :=
  { item with
    status := u.status.getD item.status
    progress := u.progress.getD item.progress
    startTime := match u.startTime with | some t => some t | none => item.startTime
    endTime := match u.endTime with | some t => some t | none => item.endTime }

/-- The processing store's state (`queue` and `isProcessing`). -/
structure ProcessingState where
  queue : List ProcessingQueueItem
  isProcessing : Bool
deriving DecidableEq, Repr

/-- The store's initial state (`queue: [], isProcessing: false`). -/
def initialProcessingState : ProcessingState := ⟨[], false⟩

/-- `addToQueue`: appends the items and sets `isProcessing` to true. -/
def addToQueue (items : List ProcessingQueueItem) (s : ProcessingState) : ProcessingState :=
  { queue := s.queue ++ items, isProcessing := true }

/-- `updateQueueItem`: merges the update into every item whose id matches. -/
def updateQueueItem (id : ℕ) (updates : QueueItemUpdate) (s : ProcessingState) :
    ProcessingState :=
  { s with queue := s.queue.map (fun item => if item.id = id then applyUpdate updates item else item) }

/-- `removeFromQueue`: drops items with the id and recomputes `isProcessing`. -/
def removeFromQueue (id : ℕ) (s : ProcessingState) : ProcessingState :=
  let newQueue := s.queue.filter (fun item => item.id ≠ id)
  { queue := newQueue
    isProcessing := newQueue.any
      (fun item => item.status == QueueStatus.queued || item.status == QueueStatus.processing) }

/-- `clearQueue`. -/
def clearQueue (_s : ProcessingState) : ProcessingState := ⟨[], false⟩

/-- `getProcessingCount`: number of items whose status is `'processing'`. -/
def getProcessingCount (s : ProcessingState) : ℕ :=
  (s.queue.filter (fun item => item.status == QueueStatus.processing)).length

/-- `canStartProcessing`. -/
def canStartProcessing (s : ProcessingState) : Bool :=
  getProcessingCount s < MAX_CONCURRENT_PROCESSING

/-- `startProcessing` (`src/stores/processing.store.ts`, lines 70-93):
enforces the concurrency cap, requires an existing `'queued'` item with the
id, then maps every item with that id to `'processing'` with the start
time.  Returns the boolean result paired with the new state. -/
def startProcessing (id : ℕ) (now : ℤ) (s : ProcessingState) : Bool × ProcessingState :=
  if MAX_CONCURRENT_PROCESSING ≤ getProcessingCount s then (false, s)
  else
    match s.queue.find? (fun item => item.id == id) with
    | none => (false, s)
    | some item =>
      if item.status ≠ QueueStatus.queued then (false, s)
      else
        (true,
          { s with queue := s.queue.map (fun item =>
              if item.id = id then
                { item with status := QueueStatus.processing, startTime := some now }
              else item) })

/-- One caller-visible operation on the processing store, as exercised by
the property tests: enqueue, attempt to start, complete via
`updateQueueItem`, remove, clear. -/
inductive StoreOp where
  | add : List ProcessingQueueItem → StoreOp
  | start : ℕ → ℤ → StoreOp
  | complete : ℕ → ℤ → StoreOp
  | remove : ℕ → StoreOp
  | clear : StoreOp

/-- Apply one operation to the store state. -/
def applyOp (s : ProcessingState) : StoreOp → ProcessingState
  | .add items => addToQueue items s
  | .start id now => (startProcessing id now s).2
  | .complete id now =>
      updateQueueItem id { status := some QueueStatus.complete, progress := some 100,
                           endTime := some now } s
  | .remove id => removeFromQueue id s
  | .clear => clearQueue s

/-- Apply a sequence of operations from left to right. -/
def applyOps (s : ProcessingState) (ops : List StoreOp) : ProcessingState :=
  ops.foldl applyOp s

/-- A well-formed operation at a given state: `add` only enqueues fresh
`'queued'` items (pairwise-distinct ids not already in the queue), as every
caller in the source does. -/
def OpOk (s : ProcessingState) : StoreOp → Prop
  | .add items =>
      (∀ it ∈ items, it.status = QueueStatus.queued) ∧
      (items.map (·.id)).Nodup ∧
      ∀ it ∈ items, it.id ∉ s.queue.map (·.id)
  | _ => True

/-- A sequence of operations each of which is well-formed at the state it
is applied to. -/
def SafeOps : ProcessingState → List StoreOp → Prop
  | _, [] => True
  | s, op :: ops => OpOk s op ∧ SafeOps (applyOp s op) ops

/-! ## History store (`src/lib/storage/indexed-db.ts`)

The IndexedDB object store is keyed by `id` with a secondary index on
`timestamp`.  Index cursor order is ascending `(timestamp, primary key)`;
an aborted transaction (a failed `store.add` on a duplicate key) rolls back
every change made inside it. -/

/-- `MAX_HISTORY_ENTRIES` (`src/lib/storage/indexed-db.ts`, line 13). -/
def MAX_HISTORY_ENTRIES : ℕ := 100

/-- `CompressionHistoryEntry` (`src/types/image.types.ts`); ids are
modelled as naturals, timestamps as integer milliseconds. -/
structure CompressionHistoryEntry where
  id : ℕ
  timestamp : ℤ
  originalName : String
  originalSize : ℕ
  compressedSize : ℕ
  format : OutputFormat
  quality : ℕ
deriving DecidableEq, Repr

/-- The timestamp-index order: ascending timestamp, ties broken by the
primary key, exactly the order an IndexedDB index cursor walks. -/
def indexLe (a b : CompressionHistoryEntry) : Prop :=
  a.timestamp < b.timestamp ∨ (a.timestamp = b.timestamp ∧ a.id ≤ b.id)

instance : DecidableRel indexLe := fun a b => by
  unfold indexLe; infer_instance

instance : IsTotal CompressionHistoryEntry indexLe where
  total a b := by
    rcases lt_trichotomy a.timestamp b.timestamp with h | h | h
    · exact Or.inl (Or.inl h)
    · rcases le_total a.id b.id with h2 | h2
      · exact Or.inl (Or.inr ⟨h, h2⟩)
      · exact Or.inr (Or.inr ⟨h.symm, h2⟩)
    · exact Or.inr (Or.inl h)

instance : IsTrans CompressionHistoryEntry indexLe where
  trans a b c hab hbc := by
    rcases hab with h1 | ⟨h1, h1'⟩ <;> rcases hbc with h2 | ⟨h2, h2'⟩
    · exact Or.inl (h1.trans h2)
    · exact Or.inl (h2 ▸ h1)
    · exact Or.inl (h1 ▸ h2)
    · exact Or.inr ⟨h1.trans h2, h1'.trans h2'⟩

/-- The store contents in timestamp-index order (the order of
`store.index('timestamp').openCursor()`). -/
def byTimestampIndex (db : List CompressionHistoryEntry) : List CompressionHistoryEntry :=
  db.insertionSort indexLe

/-- `addHistoryEntry` (`src/lib/storage/indexed-db.ts`, lines 47-103): count
the entries; at or over the cap, delete `count - cap + 1` entries in index
order (oldest timestamps first) and then `store.add` the new entry; under
the cap, just `store.add` it.  `store.add` fails on a duplicate id; the
failure rejects and aborts the transaction, rolling back the deletions, so
the store is left unchanged and the promise resolves falsy for the caller.
Returns the success flag and the resulting store contents. -/
def addHistoryEntry (entry : CompressionHistoryEntry) (db : List CompressionHistoryEntry) :
    Bool × List CompressionHistoryEntry :=
  let count := db.length
  if MAX_HISTORY_ENTRIES ≤ count then
    let entriesToDelete := count - MAX_HISTORY_ENTRIES + 1
    let evicted := (byTimestampIndex db).take entriesToDelete
    let remaining := db.filter (fun e => !(evicted.any (fun d => d.id == e.id)))
    if remaining.any (fun e => e.id == entry.id) then (false, db)
    else (true, remaining ++ [entry])
  else
    if db.any (fun e => e.id == entry.id) then (false, db)
    else (true, db ++ [entry])

/-- `getHistoryEntries` (`src/lib/storage/indexed-db.ts`, lines 108-139):
walk the timestamp index with a `'prev'` cursor, i.e. the reverse of the
ascending index order. -/
def getHistoryEntries (db : List CompressionHistoryEntry) : List CompressionHistoryEntry :=
  (byTimestampIndex db).reverse

/-- Run a sequence of `addHistoryEntry` calls from left to right, keeping
the store contents. -/
def runInserts (es : List CompressionHistoryEntry) (db : List CompressionHistoryEntry) :
    List CompressionHistoryEntry :=
  es.foldl (fun d e => (addHistoryEntry e d).2) db

/-- "Strictly descending timestamp order" as the spec states it. -/
def StrictDescTimestamps (l : List CompressionHistoryEntry) : Prop :=
  l.Pairwise (fun a b => b.timestamp < a.timestamp)

instance (l : List CompressionHistoryEntry) : Decidable (StrictDescTimestamps l) := by
  unfold StrictDescTimestamps; infer_instance

/-! ## Batch scheduler (`useBatchProcessing` hook)

The hook's React state, refs, worker pool and the two zustand stores it
mutates are collected into one record; the asynchronous message handlers
become pure state transformers.  `Date.now()` is an explicit argument and
file handles are opaque naturals. -/

/-- Image lifecycle status (`ImageFile['status']`). -/
inductive ImageStatus where
  | pending : ImageStatus
  | processing : ImageStatus
  | complete : ImageStatus
  | error : ImageStatus
deriving DecidableEq, Repr

/-- The slice of `ImageFile` (`src/stores/images.store.ts`) the scheduler
reads and writes: id, an opaque file handle, status and error message. -/
structure ImageFile where
  id : ℕ
  file : ℕ
  status : ImageStatus
  errorMsg : Option String := none
deriving DecidableEq, Repr

/-- `updateStatus` of the images store. -/
def updateImageStatus (id : ℕ) (status : ImageStatus) (images : List ImageFile) :
    List ImageFile :=
  images.map (fun img => if img.id = id then { img with status := status } else img)

/-- `setError` of the images store (sets status to `'error'` with the message). -/
def setImageError (id : ℕ) (msg : String) (images : List ImageFile) : List ImageFile :=
  images.map (fun img =>
    if img.id = id then { img with status := ImageStatus.error, errorMsg := some msg }
    else img)

/-- `BatchProcessingProgress` (per-item entry of `individualProgress`). -/
structure BatchItemProgress where
  imageId : ℕ
  progress : ℚ
  status : QueueStatus
deriving DecidableEq, Repr

/-- One worker of the pool (`WorkerInstance`): busy flag and current item. -/
structure WorkerInstance where
  busy : Bool
  currentImageId : Option ℕ
deriving DecidableEq, Repr

/-- JS `Map.set`: replace the value under an existing key in place,
otherwise append the binding (JS maps preserve insertion order). -/
def mapSet (k : ℕ) (v : BatchItemProgress) (m : List (ℕ × BatchItemProgress)) :
    List (ℕ × BatchItemProgress) :=
  if m.any (fun p => p.1 == k) then m.map (fun p => if p.1 = k then (k, v) else p)
  else m ++ [(k, v)]

/-- The scheduler's full state: React state, the refs, the worker pool and
the two stores it drives. -/
structure BatchState where
  isProcessing : Bool
  individualProgress : List (ℕ × BatchItemProgress)
  completedCount : ℕ
  totalCount : ℕ
  error : Option String
  workers : List WorkerInstance
  pendingQueue : List (ℕ × ℕ)
  optionsRef : Option CompressionOptions
  aborted : Bool
  store : ProcessingState
  images : List ImageFile
deriving DecidableEq, Repr

/-- Sum of the per-item progress values (`individualProgress.forEach`
accumulation in the `overallProgress` memo). -/
def sumProgress (m : List (ℕ × BatchItemProgress)) : ℚ :=
  m.foldl (fun acc p => acc + p.2.progress) 0

/-- `overallProgress` (`useBatchProcessing`, lines 478-489): 0 for an empty
declared batch, otherwise the rounded mean of the per-item progress values
over the declared batch size.  Derived on demand from the state — there is
no separately stored aggregate. -/
def overallProgress (st : BatchState) : ℤ :=
  if st.totalCount = 0 then 0
  else jsRound (sumProgress st.individualProgress / (st.totalCount : ℚ))

/-- `getAvailableWorker`, as the index of the first idle worker. -/
def firstIdleWorker (ws : List WorkerInstance) : Option ℕ :=
  ws.findIdx? (fun w => !w.busy)

/-- `processNextInQueue` (synchronous part): bail out when aborted, when no
worker is idle or the pending queue is empty; otherwise shift the queue
head, and — options present — mark the worker busy, put the item at
`'processing'`/0 in the progress map and propagate the status to both
stores. -/
def processNextInQueue (now : ℤ) (st : BatchState) : BatchState :=
  if st.aborted then st
  else
    match firstIdleWorker st.workers, st.pendingQueue with
    | none, _ => st
    | some _, [] => st
    | some i, (imageId, _file) :: rest =>
      let st := { st with pendingQueue := rest }
      if st.optionsRef = none then st
      else
        { st with
          workers := st.workers.set i ⟨true, some imageId⟩
          individualProgress :=
            mapSet imageId ⟨imageId, 0, QueueStatus.processing⟩ st.individualProgress
          images := updateImageStatus imageId ImageStatus.processing st.images
          store := updateQueueItem imageId
            { status := some QueueStatus.processing, startTime := some now } st.store }

/-- `checkCompletion`: when every worker is idle and the queue is empty,
the batch is done and `isProcessing` drops to false. -/
def checkCompletion (st : BatchState) : BatchState :=
  if st.workers.all (fun w => !w.busy) && st.pendingQueue.isEmpty then
    { st with isProcessing := false }
  else st

/-- The `'error'` branch of the worker message handler (`useBatchProcessing`,
lines 365-385): aborted messages are dropped; otherwise the item goes to
`'error'` in the progress map and both stores, the worker is released, the
next queued item is dispatched and completion is checked.  The batch-level
`error` field is never touched. -/
def handleWorkerError (imageId : ℕ) (msg : String) (workerIdx : ℕ) (now : ℤ)
    (st : BatchState) : BatchState :=
  if st.aborted then st
  else
    let st := { st with
      individualProgress := mapSet imageId ⟨imageId, 0, QueueStatus.error⟩ st.individualProgress
      images := setImageError imageId msg st.images
      store := updateQueueItem imageId
        { status := some QueueStatus.error, endTime := some now } st.store
      workers := st.workers.set workerIdx ⟨false, none⟩ }
    checkCompletion (processNextInQueue now st)

/-- `processBatch` (`useBatchProcessing`, lines 494-549): an empty id list
returns immediately with NO state change and NO error report; otherwise
reset the batch state, store the validated options, reset the abort flag,
rebuild the worker pool, enqueue every id that matches a not-yet-complete
image (the declared `totalCount` is the full id-list length regardless of
this filtering), push the queue items into the processing store, and
dispatch up to `MAX_CONCURRENT_PROCESSING` items. -/
def processBatch (imageIds : List ℕ) (options : CompressionOptions) (now : ℤ)
    (st : BatchState) : BatchState :=
  if imageIds.length = 0 then st
  else
    let st := { st with
      isProcessing := true
      error := none
      completedCount := 0
      totalCount := imageIds.length
      individualProgress := []
      optionsRef := some (validateCompressionOptions options)
      aborted := false
      workers := List.replicate MAX_CONCURRENT_PROCESSING ⟨false, none⟩ }
    let selected : List (ℕ × ℕ) := imageIds.filterMap (fun imageId =>
      match st.images.find? (fun img => img.id == imageId) with
      | some image => if image.status ≠ ImageStatus.complete then some (imageId, image.file)
                      else none
      | none => none)
    let queueItems : List ProcessingQueueItem := selected.map (fun p =>
      { id := p.1, imageId := p.1, status := QueueStatus.queued, progress := 0 })
    let st := { st with
      pendingQueue := selected
      individualProgress :=
        selected.foldl (fun m p => mapSet p.1 ⟨p.1, 0, QueueStatus.queued⟩ m)
          st.individualProgress
      store := addToQueue queueItems st.store }
    (List.range MAX_CONCURRENT_PROCESSING).foldl (fun s _ => processNextInQueue now s) st

/-! ## Auxiliary definitions for stating and deciding the properties -/

instance instDecidableOpOk (s : ProcessingState) (op : StoreOp) : Decidable (OpOk s op) := by
  unfold OpOk; cases op <;> infer_instance

instance instDecidableSafeOps : (ops : List StoreOp) → (s : ProcessingState) →
    Decidable (SafeOps s ops)
  | [], _ => isTrue trivial
  | op :: ops, s =>
      have : Decidable (SafeOps (applyOp s op) ops) := instDecidableSafeOps ops (applyOp s op)
      inferInstanceAs (Decidable (_ ∧ _))

instance (s : ProcessingState) (ops : List StoreOp) : Decidable (SafeOps s ops) :=
  instDecidableSafeOps ops s

/-- The processing-store invariant maintained by well-formed operation
sequences: the concurrency cap holds and queue ids are pairwise distinct. -/
def QueueInvariant (s : ProcessingState) : Prop :=
  getProcessingCount s ≤ MAX_CONCURRENT_PROCESSING ∧ (s.queue.map (·.id)).Nodup

/-- An `Option ℚ` constraint that, when set, holds a positive integer. -/
def PosIntOpt (o : Option ℚ) : Prop :=
  ∀ m, o = some m → ∃ n : ℕ, 0 < n ∧ m = (n : ℚ)

/-- 20 fresh queued items, ids 0-19 (the cap-saturation scenario). -/
def twentyItems : List ProcessingQueueItem :=
  (List.range 20).map (fun i => { id := i, imageId := i, status := QueueStatus.queued, progress := 0 })

/-- Enqueue the 20 items, then attempt `startProcessing` on every one. -/
def twentyOps : List StoreOp :=
  StoreOp.add twentyItems :: (List.range 20).map (fun i => StoreOp.start i 0)

/-- 100 history entries with distinct ids 0-99 and timestamps 0-99. -/
def hundredEntries : List CompressionHistoryEntry :=
  (List.range 100).map (fun i => ⟨i, (i : ℤ), "img", 1, 1, OutputFormat.webp, 70⟩)

/-- The store contents after inserting the 100 entries into an empty store. -/
def fullHistoryDb : List CompressionHistoryEntry :=
  runInserts hundredEntries []

/-- A 101st entry whose id collides with entry 50 (fresh, larger timestamp). -/
def duplicateIdEntry : CompressionHistoryEntry :=
  ⟨50, 200, "dup", 1, 1, OutputFormat.webp, 70⟩

/-- The batch scheduler's initial state (fresh hook mount, empty stores). -/
def emptyBatchState : BatchState :=
  { isProcessing := false, individualProgress := [], completedCount := 0, totalCount := 0,
    error := none, workers := [], pendingQueue := [], optionsRef := none, aborted := false,
    store := initialProcessingState, images := [] }

/-- A typical already-normalized options record. -/
def sampleOptions : CompressionOptions :=
  { quality := JsVal.num 70, format := OutputFormat.webp,
    maintainAspectRatio := true, stripMetadata := true }

/-! ## Lemmas about JS rounding -/

theorem jsRound_mono {x y : ℚ} (h : x ≤ y) : jsRound x ≤ jsRound y :=
  Int.floor_le_floor (by linarith)

theorem jsRound_intCast (n : ℤ) : jsRound (n : ℚ) = n := by
  unfold jsRound
  rw [add_comm, Int.floor_add_int]
  norm_num

theorem jsRound_cast_le {x : ℚ} {n : ℤ} (h : x ≤ (n : ℚ)) : ((jsRound x : ℤ) : ℚ) ≤ (n : ℚ) := by
  exact_mod_cast (jsRound_mono h).trans_eq (jsRound_intCast n)

/-! ## C6: quality normalization -/

/-- C6: for every quality input value — NaN, +Infinity, −Infinity, negative
and >100 values included — the quality field of the record returned by
`validateCompressionOptions` (via `clampQuality`) is an integer in [0, 100]. -/
theorem validateCompressionOptions_quality_bounds (options : CompressionOptions) :
    ∃ k : ℤ, (validateCompressionOptions options).quality = JsVal.num (k : ℚ) ∧
      0 ≤ k ∧ k ≤ 100 := by
  rcases options with ⟨q, fmt, mw, mh, ar, sm, pr⟩
  cases q with
  | nan => exact ⟨70, rfl, by norm_num, by norm_num⟩
  | posInf =>
      refine ⟨100, ?_, by norm_num, le_refl _⟩
      show JsVal.num _ = JsVal.num _
      norm_num
  | negInf =>
      refine ⟨0, ?_, le_refl _, by norm_num⟩
      show JsVal.num _ = JsVal.num _
      norm_num
  | num x =>
      refine ⟨max 0 (min 100 (jsRound x)), ?_, le_max_left _ _, ?_⟩
      · show JsVal.num (max 0 (min 100 ((jsRound x : ℤ) : ℚ))) = JsVal.num _
        push_cast
        rfl
      · exact max_le (by norm_num) ((min_le_left _ _))

/-! ## C3: compression-ratio bounds -/

theorem jsSub_num (a b : ℚ) : jsSub (.num a) (.num b) = .num (a - b) := rfl

theorem jsDiv_num (a b : ℚ) (h : b ≠ 0) : jsDiv (.num a) (.num b) = .num (a / b) := by
  show (if b = 0 then (if a = 0 then JsVal.nan else if 0 < a then JsVal.posInf else JsVal.negInf)
        else JsVal.num (a / b)) = JsVal.num (a / b)
  rw [if_neg h]

theorem jsDiv_neg_zero (a : ℚ) (h : a < 0) : jsDiv (.num a) (.num 0) = .negInf := by
  show (if (0 : ℚ) = 0 then (if a = 0 then JsVal.nan else if 0 < a then JsVal.posInf
        else JsVal.negInf) else JsVal.num (a / 0)) = JsVal.negInf
  rw [if_pos rfl, if_neg (ne_of_lt h), if_neg (not_lt.mpr h.le)]

theorem jsDiv_zero_zero : jsDiv (.num 0) (.num 0) = .nan := by
  show (if (0 : ℚ) = 0 then (if (0 : ℚ) = 0 then JsVal.nan else if 0 < (0 : ℚ) then JsVal.posInf
        else JsVal.negInf) else JsVal.num (0 / 0)) = JsVal.nan
  rw [if_pos rfl, if_pos rfl]

theorem jsMul_num (a b : ℚ) : jsMul (.num a) (.num b) = .num (a * b) := rfl

theorem jsMul_negInf_pos (b : ℚ) (h : 0 < b) : jsMul .negInf (.num b) = .negInf := by
  show (if b = 0 then JsVal.nan else if 0 < b then JsVal.negInf else JsVal.posInf) = JsVal.negInf
  rw [if_neg (ne_of_gt h), if_pos h]

theorem jsMul_nan_left (v : JsVal) : jsMul .nan v = .nan := by cases v <;> rfl

theorem jsMin_num (a b : ℚ) : jsMin (.num a) (.num b) = .num (min a b) := rfl

theorem jsMin_num_negInf (a : ℚ) : jsMin (.num a) .negInf = .negInf := rfl

theorem jsMin_num_nan (a : ℚ) : jsMin (.num a) .nan = .nan := rfl

theorem jsMax_num (a b : ℚ) : jsMax (.num a) (.num b) = .num (max a b) := rfl

theorem jsMax_num_negInf (a : ℚ) : jsMax (.num a) .negInf = .num a := rfl

theorem jsMax_num_nan (a : ℚ) : jsMax (.num a) .nan = .nan := rfl

/-- For positive original size the worker's unguarded ratio is the clamped
spec formula, as a finite JS number. -/
theorem compressImageRatio_eq_ratioSpec (o c : ℚ) (ho : 0 < o) :
    compressImageCompressionRatio o c = JsVal.num (ratioSpec o c) := by
  unfold compressImageCompressionRatio ratioSpec
  rw [jsSub_num, jsDiv_num _ _ (ne_of_gt ho), jsMul_num, jsMin_num, jsMax_num]

/-- Evaluation rule for the spec's clamp formula. -/
theorem ratioSpec_eval {o c r : ℚ} (h : (o - c) / o * 100 = r) (h0 : 0 ≤ r) (h100 : r ≤ 100) :
    ratioSpec o c = r := by
  unfold ratioSpec
  rw [h, min_eq_right h100, max_eq_right h0]

/-- The guard branch of the helper fires for every non-positive original. -/
theorem calculateCompressionRatio_nonpos {o : ℚ} (c : ℚ) (h : o ≤ 0) :
    calculateCompressionRatio o c = 0 := by
  unfold calculateCompressionRatio
  rw [if_pos h]

/-- For positive original size the helper equals the clamped spec formula. -/
theorem calculateCompressionRatio_pos {o : ℚ} (c : ℚ) (h : 0 < o) :
    calculateCompressionRatio o c = ratioSpec o c := by
  unfold calculateCompressionRatio ratioSpec
  rw [if_neg (not_le.mpr h)]

/-- C3 counterexample: inside the worker's `compressImage` the ratio is
computed without a guard on `originalSize`; at originalSize = 0 and
compressedSize = 0 the division is `0/0`, so the "clamped" ratio is NaN —
not a value in [0, 100] — refuting the claim that the worker's ratio lies
in [0, 100] for every size pair. -/
theorem compressImageRatio_nan_counterexample :
    compressImageCompressionRatio 0 0 = JsVal.nan ∧
    ∀ q : ℚ, compressImageCompressionRatio 0 0 ≠ JsVal.num q := by
  have h : compressImageCompressionRatio 0 0 = JsVal.nan := by
    unfold compressImageCompressionRatio
    rw [jsSub_num, show (0 : ℚ) - 0 = 0 by norm_num, jsDiv_zero_zero, jsMul_nan_left,
      jsMin_num_nan, jsMax_num_nan]
  exact ⟨h, fun q hq => JsVal.noConfusion (h.symm.trans hq)⟩

/-- C3 (amended): for every size pair with positive original size, both the
helper `calculateCompressionRatio` and the worker ratio equal
`clamp(((original − compressed)/original)·100, 0, 100)` and lie in
[0, 100]; the guarded helper returns 0 whenever the original size is 0,
while the unguarded worker ratio at original size 0 is 0 for positive
compressed size (`-Infinity` clamped to 0) and NaN only at (0, 0).  The
concrete values (100→50)=50, (100→25)=75, (100→100)=0 and (0→50)=0 hold
for both. -/
theorem compressionRatio_clamped :
    (∀ o c : ℕ, 0 < o →
      calculateCompressionRatio (o : ℚ) (c : ℚ) = ratioSpec (o : ℚ) (c : ℚ) ∧
      compressImageCompressionRatio (o : ℚ) (c : ℚ) = JsVal.num (ratioSpec (o : ℚ) (c : ℚ)) ∧
      0 ≤ ratioSpec (o : ℚ) (c : ℚ) ∧ ratioSpec (o : ℚ) (c : ℚ) ≤ 100) ∧
    (∀ c : ℕ, calculateCompressionRatio 0 (c : ℚ) = 0) ∧
    (∀ c : ℕ, 0 < c → compressImageCompressionRatio 0 (c : ℚ) = JsVal.num 0) ∧
    (calculateCompressionRatio 100 50 = 50 ∧ calculateCompressionRatio 100 25 = 75 ∧
      calculateCompressionRatio 100 100 = 0 ∧ calculateCompressionRatio 0 50 = 0) ∧
    (compressImageCompressionRatio 100 50 = JsVal.num 50 ∧
      compressImageCompressionRatio 100 25 = JsVal.num 75 ∧
      compressImageCompressionRatio 100 100 = JsVal.num 0 ∧
      compressImageCompressionRatio 0 50 = JsVal.num 0) := by
  refine ⟨?_, ?_, ?_, ⟨?_, ?_, ?_, ?_⟩, ⟨?_, ?_, ?_, ?_⟩⟩
  · intro o c ho
    have hoQ : (0 : ℚ) < (o : ℚ) := by exact_mod_cast ho
    exact ⟨calculateCompressionRatio_pos _ hoQ, compressImageRatio_eq_ratioSpec _ _ hoQ,
      le_max_left _ _, max_le (by norm_num) (min_le_left _ _)⟩
  · intro c
    exact calculateCompressionRatio_nonpos _ (le_refl 0)
  · intro c hc
    have hcQ : (0 : ℚ) < (c : ℚ) := by exact_mod_cast hc
    unfold compressImageCompressionRatio
    rw [jsSub_num, jsDiv_neg_zero _ (by linarith), jsMul_negInf_pos _ (by norm_num),
      jsMin_num_negInf, jsMax_num_negInf]
  · rw [calculateCompressionRatio_pos _ (by norm_num)]
    exact ratioSpec_eval (by norm_num) (by norm_num) (by norm_num)
  · rw [calculateCompressionRatio_pos _ (by norm_num)]
    exact ratioSpec_eval (by norm_num) (by norm_num) (by norm_num)
  · rw [calculateCompressionRatio_pos _ (by norm_num)]
    exact ratioSpec_eval (by norm_num) (by norm_num) (by norm_num)
  · exact calculateCompressionRatio_nonpos _ (le_refl 0)
  · rw [compressImageRatio_eq_ratioSpec _ _ (by norm_num)]
    exact congrArg JsVal.num (ratioSpec_eval (by norm_num) (by norm_num) (by norm_num))
  · rw [compressImageRatio_eq_ratioSpec _ _ (by norm_num)]
    exact congrArg JsVal.num (ratioSpec_eval (by norm_num) (by norm_num) (by norm_num))
  · rw [compressImageRatio_eq_ratioSpec _ _ (by norm_num)]
    exact congrArg JsVal.num (ratioSpec_eval (by norm_num) (by norm_num) (by norm_num))
  · unfold compressImageCompressionRatio
    rw [jsSub_num, jsDiv_neg_zero _ (by norm_num), jsMul_negInf_pos _ (by norm_num),
      jsMin_num_negInf, jsMax_num_negInf]

/-! ## C5: zero-dimension guard -/

/-- Witness for C3's amended theorem at the size pair (50, 25). -/
theorem compressionRatio_clamped_witness :
    calculateCompressionRatio ((50 : ℕ) : ℚ) ((25 : ℕ) : ℚ) =
      ratioSpec ((50 : ℕ) : ℚ) ((25 : ℕ) : ℚ) :=
  (compressionRatio_clamped.1 50 25 (by norm_num)).1

/-- C5 counterexample: the worker's `calculateOutputDimensions` has no
zero/negative-dimension guard; with input (0, 5) and no constraints it
returns (0, 5), not (0, 0), refuting the claim for the worker. -/
theorem calculateOutputDimensions_zero_counterexample :
    calculateOutputDimensions 0 5
      { quality := JsVal.num 70, format := OutputFormat.webp,
        maintainAspectRatio := true, stripMetadata := true } = (0, 5) ∧
    ((0 : ℚ), (5 : ℚ)) ≠ ((0 : ℚ), (0 : ℚ)) := by
  constructor
  · rfl
  · decide

/-- C5 (amended): the helper `calculateDimensions` returns (0, 0) for every
input with non-positive width or height and every options record; the
worker's `calculateOutputDimensions` performs no such guard. -/
theorem calculateDimensions_zero_guard (original : OriginalDimensions)
    (options : DimensionConstraints)
    (h : original.width ≤ 0 ∨ original.height ≤ 0) :
    calculateDimensions original options = (0, 0) := by
  unfold calculateDimensions
  rw [if_pos h]

/-- Witness for C5's amended theorem at input (0, 5). -/
theorem calculateDimensions_zero_guard_witness :
    calculateDimensions ⟨0, 5⟩ { maintainAspectRatio := true } = (0, 0) :=
  calculateDimensions_zero_guard ⟨0, 5⟩ { maintainAspectRatio := true } (Or.inl (le_refl 0))

/-! ## C9 and C7: batch scheduler -/

theorem processNextInQueue_error (now : ℤ) (st : BatchState) :
    (processNextInQueue now st).error = st.error := by
  unfold processNextInQueue
  split
  · rfl
  · split
    · rfl
    · rfl
    · dsimp only
      split
      · rfl
      · rfl

theorem processNextInQueue_totalCount (now : ℤ) (st : BatchState) :
    (processNextInQueue now st).totalCount = st.totalCount := by
  unfold processNextInQueue
  split
  · rfl
  · split
    · rfl
    · rfl
    · dsimp only
      split
      · rfl
      · rfl

theorem checkCompletion_error (st : BatchState) : (checkCompletion st).error = st.error := by
  unfold checkCompletion
  split <;> rfl

theorem foldl_processNext_totalCount (l : List ℕ) (now : ℤ) (st : BatchState) :
    (l.foldl (fun s _ => processNextInQueue now s) st).totalCount = st.totalCount := by
  induction l generalizing st with
  | nil => rfl
  | cons a l ih => rw [List.foldl_cons, ih, processNextInQueue_totalCount]

/-- C9 counterexample: submitting an empty batch is NOT reported to the
caller — `processBatch` with an empty id list returns with the state
completely unchanged and the batch-level error still `none`, refuting the
claim that an empty batch is reported synchronously at the call site. -/
theorem processBatch_empty_counterexample :
    processBatch [] sampleOptions 0 emptyBatchState = emptyBatchState ∧
    (processBatch [] sampleOptions 0 emptyBatchState).error = none := ⟨rfl, rfl⟩

/-- C9 (amended): submitting an empty batch is silently ignored —
`processBatch` returns immediately with no state change and no error
report — while per-item failures stay per item: the worker-error handler
never touches the batch-level `error` field (and, being a total state
transformer, raises no batch-level exception). -/
theorem processBatch_empty_silent :
    (∀ (options : CompressionOptions) (now : ℤ) (st : BatchState),
      processBatch [] options now st = st) ∧
    (∀ (imageId : ℕ) (msg : String) (workerIdx : ℕ) (now : ℤ) (st : BatchState),
      (handleWorkerError imageId msg workerIdx now st).error = st.error) := by
  constructor
  · intro options now st
    rfl
  · intro imageId msg workerIdx now st
    unfold handleWorkerError
    split
    · rfl
    · rw [checkCompletion_error, processNextInQueue_error]

/-- `sumProgress` is the sum of the per-item progress values. -/
theorem sumProgress_eq (m : List (ℕ × BatchItemProgress)) :
    sumProgress m = (m.map (fun p => p.2.progress)).sum := by
  unfold sumProgress
  rw [List.sum_eq_foldl, List.foldl_map]

/-- C7: the scheduler's overall progress is recomputed from the per-item
progress values as round(sum(progress) / count), where count is the
declared batch size — `processBatch` sets `totalCount` to the length of
the submitted id list (not the possibly smaller filtered active set) —
and an empty declared batch has overall progress 0. -/
theorem overallProgress_formula :
    (∀ st : BatchState, overallProgress st =
      if st.totalCount = 0 then 0
      else jsRound ((st.individualProgress.map (fun p => p.2.progress)).sum /
        (st.totalCount : ℚ))) ∧
    (∀ (imageIds : List ℕ) (options : CompressionOptions) (now : ℤ) (st : BatchState),
      imageIds ≠ [] → (processBatch imageIds options now st).totalCount = imageIds.length) := by
  constructor
  · intro st
    unfold overallProgress
    rw [sumProgress_eq]
  · intro imageIds options now st hne
    unfold processBatch
    rw [if_neg (by simpa using hne)]
    dsimp only
    rw [foldl_processNext_totalCount]

/-- Witness for C7 on a singleton batch: the declared total is 1. -/
theorem overallProgress_formula_witness :
    (processBatch [7] sampleOptions 0 emptyBatchState).totalCount = 1 :=
  overallProgress_formula.2 [7] sampleOptions 0 emptyBatchState (by decide)

/-! ## C8: history retrieval order -/

theorem byTimestampIndex_perm (db : List CompressionHistoryEntry) :
    List.Perm (byTimestampIndex db) db :=
  List.perm_insertionSort _ _

theorem byTimestampIndex_sorted (db : List CompressionHistoryEntry) :
    (byTimestampIndex db).Sorted indexLe :=
  List.sorted_insertionSort _ _

/-- C8 counterexample: with two entries sharing a timestamp, the list
returned by `getHistoryEntries` is not in strictly descending timestamp
order (equal timestamps are adjacent), refuting the claim for stores with
duplicate timestamps. -/
theorem getHistoryEntries_strict_counterexample :
    ¬ StrictDescTimestamps (getHistoryEntries
      [⟨0, 5, "a", 1, 1, OutputFormat.webp, 70⟩, ⟨1, 5, "b", 1, 1, OutputFormat.webp, 70⟩]) := by
  decide

/-- C8 (amended): `getHistoryEntries` returns exactly the store's entries,
ordered newest-timestamp-first (non-increasing timestamps); the order is
strictly descending whenever the stored timestamps are pairwise distinct. -/
theorem getHistoryEntries_newest_first (db : List CompressionHistoryEntry) :
    (getHistoryEntries db).Perm db ∧
    (getHistoryEntries db).Pairwise (fun a b => b.timestamp ≤ a.timestamp) ∧
    ((db.map (fun e => e.timestamp)).Nodup → StrictDescTimestamps (getHistoryEntries db)) := by
  refine ⟨?_, ?_, ?_⟩
  · exact (List.reverse_perm _).trans (byTimestampIndex_perm db)
  · unfold getHistoryEntries
    rw [List.pairwise_reverse]
    exact (byTimestampIndex_sorted db).imp (fun hab => by
      rcases hab with h | ⟨h, _⟩
      · exact le_of_lt h
      · exact le_of_eq h)
  · intro hnd
    have hnd' : ((byTimestampIndex db).map (fun e => e.timestamp)).Nodup :=
      (((byTimestampIndex_perm db).map (fun e => e.timestamp)).nodup_iff).mpr hnd
    have hne : (byTimestampIndex db).Pairwise (fun a b => a.timestamp ≠ b.timestamp) :=
      List.pairwise_map.mp hnd'
    have hcomb := (byTimestampIndex_sorted db).and hne
    unfold StrictDescTimestamps getHistoryEntries
    rw [List.pairwise_reverse]
    exact hcomb.imp (fun hab => by
      rcases hab with ⟨h | ⟨h, _⟩, hne'⟩
      · exact h
      · exact absurd h hne')

/-- Witness for C8's amended theorem: two distinct-timestamp entries come
back in strictly descending timestamp order. -/
theorem getHistoryEntries_newest_first_witness :
    StrictDescTimestamps (getHistoryEntries
      [⟨0, 1, "a", 1, 1, OutputFormat.webp, 70⟩, ⟨1, 2, "b", 1, 1, OutputFormat.webp, 70⟩]) :=
  (getHistoryEntries_newest_first
    [⟨0, 1, "a", 1, 1, OutputFormat.webp, 70⟩, ⟨1, 2, "b", 1, 1, OutputFormat.webp, 70⟩]).2.2
    (by decide)

/-! ## C4: dimension clamping -/

theorem jsRound_cast_le_natCast {x : ℚ} {n : ℕ} (h : x ≤ (n : ℚ)) :
    ((jsRound x : ℤ) : ℚ) ≤ (n : ℚ) := by
  have h' : x ≤ ((n : ℤ) : ℚ) := by exact_mod_cast h
  exact_mod_cast jsRound_cast_le h'

/-- C4: with positive input dimensions, aspect-lock on and positive integer
constraints, the two-pass clamp of `calculateDimensions` yields an output
width ≤ maxWidth and an output height ≤ maxHeight whenever each is set;
with neither constraint set the output equals the input exactly; and for
positive inputs the worker's `calculateOutputDimensions` computes exactly
the same result from the same constraints. -/
theorem calculateDimensions_bounds (w h : ℚ) (c : DimensionConstraints)
    (hw : 0 < w) (hh : 0 < h) (har : c.maintainAspectRatio = true)
    (hW : PosIntOpt c.maxWidth) (hH : PosIntOpt c.maxHeight) :
    (∀ m, c.maxWidth = some m → (calculateDimensions ⟨w, h⟩ c).1 ≤ m) ∧
    (∀ m, c.maxHeight = some m → (calculateDimensions ⟨w, h⟩ c).2 ≤ m) ∧
    (c.maxWidth = none → c.maxHeight = none → calculateDimensions ⟨w, h⟩ c = (w, h)) ∧
    (∀ options : CompressionOptions, options.maxWidth = c.maxWidth →
      options.maxHeight = c.maxHeight →
      options.maintainAspectRatio = c.maintainAspectRatio →
      calculateOutputDimensions w h options = calculateDimensions ⟨w, h⟩ c) := by
  have hpos : ¬(w ≤ 0 ∨ h ≤ 0) := by push_neg; exact ⟨hw, hh⟩
  have hwh : 0 < w / h := div_pos hw hh
  obtain ⟨mW, mH, ar⟩ := c
  dsimp only at har hW hH ⊢
  subst har
  refine ⟨?_, ?_, ?_, ?_⟩
  · -- width bound
    intro m hm
    subst hm
    obtain ⟨n, hn0, hnm⟩ := hW m rfl
    have hm0 : (0 : ℚ) < m := by rw [hnm]; exact_mod_cast hn0
    have hmne : m ≠ 0 := ne_of_gt hm0
    have htr : ¬(jsTruthy (some m) = false ∧ jsTruthy mH = false) := by
      intro hc
      exact absurd hc.1 (by simp [jsTruthy, hmne])
    rcases mH with _ | m'
    · unfold calculateDimensions
      rw [if_neg hpos, if_neg htr, if_neg (by simp)]
      dsimp only
      by_cases h1 : m < w
      · rw [if_pos ⟨hmne, h1⟩]
        rw [hnm]
        exact jsRound_cast_le_natCast (le_refl _)
      · rw [if_neg (fun hc => h1 hc.2)]
        rw [hnm] at h1 ⊢
        exact jsRound_cast_le_natCast (not_lt.mp h1)
    · obtain ⟨n', hn0', hnm'⟩ := hH m' rfl
      have hm0' : (0 : ℚ) < m' := by rw [hnm']; exact_mod_cast hn0'
      have hmne' : m' ≠ 0 := ne_of_gt hm0'
      unfold calculateDimensions
      rw [if_neg hpos, if_neg htr, if_neg (by simp)]
      dsimp only
      by_cases h1 : m < w
      · have hp1 : (if m ≠ 0 ∧ m < w then ((m : ℚ), m / (w / h)) else (w, h)) =
            (m, m / (w / h)) := if_pos ⟨hmne, h1⟩
        rw [hp1]
        dsimp only
        by_cases h2 : m' < m / (w / h)
        · rw [if_pos ⟨hmne', h2⟩]
          dsimp only
          have hlt : m' * (w / h) < m := by
            have hs := mul_lt_mul_of_pos_right h2 hwh
            rwa [div_mul_cancel₀ m (ne_of_gt hwh)] at hs
          rw [hnm] at hlt ⊢
          exact jsRound_cast_le_natCast hlt.le
        · rw [if_neg (fun hc => h2 hc.2)]
          dsimp only
          rw [hnm]
          exact jsRound_cast_le_natCast (le_refl _)
      · have hp1 : (if m ≠ 0 ∧ m < w then ((m : ℚ), m / (w / h)) else (w, h)) =
            (w, h) := if_neg (fun hc => h1 hc.2)
        rw [hp1]
        dsimp only
        have hwm : w ≤ m := not_lt.mp h1
        by_cases h2 : m' < h
        · rw [if_pos ⟨hmne', h2⟩]
          dsimp only
          have hlt : m' * (w / h) < m := by
            have hstep : m' * (w / h) < h * (w / h) := mul_lt_mul_of_pos_right h2 hwh
            have hhw : h * (w / h) = w := by
              field_simp
            calc m' * (w / h) < h * (w / h) := hstep
              _ = w := hhw
              _ ≤ m := hwm
          rw [hnm] at hlt ⊢
          exact jsRound_cast_le_natCast hlt.le
        · rw [if_neg (fun hc => h2 hc.2)]
          dsimp only
          rw [hnm] at hwm ⊢
          exact jsRound_cast_le_natCast hwm
  · -- height bound
    intro m' hm'
    subst hm'
    obtain ⟨n', hn0', hnm'⟩ := hH m' rfl
    have hm0' : (0 : ℚ) < m' := by rw [hnm']; exact_mod_cast hn0'
    have hmne' : m' ≠ 0 := ne_of_gt hm0'
    have htr : ¬(jsTruthy mW = false ∧ jsTruthy (some m') = false) := by
      intro hc
      exact absurd hc.2 (by simp [jsTruthy, hmne'])
    rcases mW with _ | m
    · unfold calculateDimensions
      rw [if_neg hpos, if_neg htr, if_neg (by simp)]
      dsimp only
      by_cases h2 : m' < h
      · rw [if_pos ⟨hmne', h2⟩]
        dsimp only
        rw [hnm']
        exact jsRound_cast_le_natCast (le_refl _)
      · rw [if_neg (fun hc => h2 hc.2)]
        dsimp only
        rw [hnm'] at h2 ⊢
        exact jsRound_cast_le_natCast (not_lt.mp h2)
    · unfold calculateDimensions
      rw [if_neg hpos, if_neg htr, if_neg (by simp)]
      dsimp only
      by_cases h2 : m' < (if m ≠ 0 ∧ m < w then ((m : ℚ), m / (w / h)) else (w, h)).2
      · rw [if_pos ⟨hmne', h2⟩]
        dsimp only
        rw [hnm']
        exact jsRound_cast_le_natCast (le_refl _)
      · rw [if_neg (fun hc => h2 hc.2)]
        rw [hnm'] at h2 ⊢
        exact jsRound_cast_le_natCast (not_lt.mp h2)
  · -- no constraints: identity
    intro h1 h2
    subst h1
    subst h2
    unfold calculateDimensions
    rw [if_neg hpos, if_pos ⟨rfl, rfl⟩]
  · -- the worker computes the same result for positive inputs
    intro options ho1 ho2 ho3
    unfold calculateOutputDimensions calculateDimensions
    rw [ho1, ho2, ho3]
    rw [if_neg hpos]

/-- Witness for C4 at input (1000, 500) with both constraints set to 100. -/
theorem calculateDimensions_bounds_witness :
    (calculateDimensions ⟨1000, 500⟩
      { maxWidth := some 100, maxHeight := some 100, maintainAspectRatio := true }).1 ≤ 100 :=
  (calculateDimensions_bounds 1000 500
    { maxWidth := some 100, maxHeight := some 100, maintainAspectRatio := true }
    (by norm_num) (by norm_num) rfl
    (fun m hm => ⟨100, by norm_num, by injection hm with hm'; rw [← hm']; norm_num⟩)
    (fun m hm => ⟨100, by norm_num, by injection hm with hm'; rw [← hm']; norm_num⟩)).1
    100 rfl

/-! ## C10 and C1: the processing store -/

/-- `getProcessingCount` as a `countP`. -/
theorem getProcessingCount_eq_countP (s : ProcessingState) :
    getProcessingCount s = s.queue.countP (fun item => item.status == QueueStatus.processing) := by
  unfold getProcessingCount
  rw [List.countP_eq_length_filter]

/-- Mapping a function that never turns a non-matching element into a
matching one cannot increase a `countP`. -/
theorem countP_map_le {α : Type} (p : α → Bool) (f : α → α) (l : List α)
    (hf : ∀ a ∈ l, p (f a) = true → p a = true) :
    (l.map f).countP p ≤ l.countP p := by
  induction l with
  | nil => exact le_refl _
  | cons x xs ih =>
      rw [List.map_cons, List.countP_cons, List.countP_cons]
      have hxs := ih (fun a ha => hf a (List.mem_cons_of_mem _ ha))
      by_cases hx : p (f x) = true
      · rw [if_pos hx, if_pos (hf x (List.mem_cons_self _ _) hx)]
        omega
      · rw [if_neg hx]
        have : (if p x = true then 1 else 0) ≥ 0 := Nat.zero_le _
        omega

/-- The update map of `startProcessing`. -/
theorem startProcessing_map_ids (id : ℕ) (now : ℤ) (q : List ProcessingQueueItem) :
    (q.map (fun item => if item.id = id then
        { item with status := QueueStatus.processing, startTime := some now }
      else item)).map (·.id) = q.map (·.id) := by
  rw [List.map_map]
  refine List.map_congr_left (fun a _ => ?_)
  by_cases ha : a.id = id
  · simp [ha]
  · simp [ha]

/-- With pairwise-distinct ids, `startProcessing`'s map turns exactly the
one queued item with the target id into `'processing'`, so the processing
count rises by exactly one. -/
theorem countP_start_succ (id : ℕ) (now : ℤ) (q : List ProcessingQueueItem)
    (hnd : (q.map (·.id)).Nodup) (it : ProcessingQueueItem) (hmem : it ∈ q)
    (hid : it.id = id) (hst : it.status = QueueStatus.queued) :
    (q.map (fun item => if item.id = id then
        { item with status := QueueStatus.processing, startTime := some now }
      else item)).countP (fun item => item.status == QueueStatus.processing) =
    q.countP (fun item => item.status == QueueStatus.processing) + 1 := by
  induction q with
  | nil => cases hmem
  | cons x xs ih =>
      simp only [List.map_cons, List.nodup_cons] at hnd
      obtain ⟨hx, hnd'⟩ := hnd
      by_cases hxid : x.id = id
      · have hitx : it = x := by
          rcases List.mem_cons.mp hmem with hcase | hcase
          · exact hcase
          · exact absurd (hxid ▸ hid ▸ List.mem_map_of_mem (·.id) hcase) hx
        subst hitx
        have hmapxs : xs.map (fun item => if item.id = id then
            { item with status := QueueStatus.processing, startTime := some now }
          else item) = xs := by
          conv_rhs => rw [← List.map_id xs]
          refine List.map_congr_left (fun a ha => ?_)
          have hane : a.id ≠ id := fun haid =>
            hx (hxid ▸ haid ▸ List.mem_map_of_mem (·.id) ha)
          simp [hane]
        rw [List.map_cons, hmapxs, List.countP_cons, List.countP_cons]
        simp [hxid, hst]
      · have hitxs : it ∈ xs := by
          rcases List.mem_cons.mp hmem with hcase | hcase
          · exact absurd (hcase ▸ hid) hxid
          · exact hcase
        rw [List.map_cons, List.countP_cons, List.countP_cons]
        simp only [if_neg hxid]
        rw [ih hnd' hitxs]
        omega

/-- Case analysis for `startProcessing`: either it fails and returns the
state unchanged, or it succeeds under the cap on a found queued item and
maps the queue. -/
theorem startProcessing_cases (id : ℕ) (now : ℤ) (s : ProcessingState) :
    startProcessing id now s = (false, s) ∨
    ((startProcessing id now s).1 = true ∧
      getProcessingCount s < MAX_CONCURRENT_PROCESSING ∧
      (∃ item, s.queue.find? (fun it => it.id == id) = some item ∧
        item.status = QueueStatus.queued ∧ item.id = id ∧ item ∈ s.queue) ∧
      (startProcessing id now s).2 =
        { s with queue := s.queue.map (fun item =>
            if item.id = id then
              { item with status := QueueStatus.processing, startTime := some now }
            else item) }) := by
  unfold startProcessing
  by_cases hcap : MAX_CONCURRENT_PROCESSING ≤ getProcessingCount s
  · rw [if_pos hcap]
    left
    rfl
  · rw [if_neg hcap]
    cases hfind : s.queue.find? (fun item => item.id == id) with
    | none => left; rfl
    | some item =>
        dsimp only
        by_cases hst : item.status ≠ QueueStatus.queued
        · rw [if_pos hst]
          left
          rfl
        · rw [if_neg hst]
          right
          have hbeq0 := List.find?_some hfind
          have hbeq : (item.id == id) = true := hbeq0
          refine ⟨rfl, not_le.mp hcap,
            ⟨item, rfl, not_not.mp hst, by simpa using hbeq,
              List.mem_of_find?_eq_some hfind⟩, rfl⟩

theorem forall₂_map_self {α : Type} (f : α → α) (R : α → α → Prop) (l : List α)
    (hR : ∀ a ∈ l, R (f a) a) : List.Forall₂ R (l.map f) l := by
  induction l with
  | nil => exact List.Forall₂.nil
  | cons x xs ih =>
      exact List.Forall₂.cons (hR x (List.mem_cons_self _ _))
        (ih (fun a ha => hR a (List.mem_cons_of_mem _ ha)))

/-- C10 counterexample: with two queued items sharing an id, a single
`startProcessing` call returns true but flips BOTH of them to
`'processing'` — it does not transition only "that single item". -/
theorem startProcessing_duplicate_counterexample :
    (startProcessing 0 0
      ⟨[{ id := 0, imageId := 0, status := QueueStatus.queued, progress := 0 },
        { id := 0, imageId := 1, status := QueueStatus.queued, progress := 0 }], true⟩).1 = true ∧
    getProcessingCount (startProcessing 0 0
      ⟨[{ id := 0, imageId := 0, status := QueueStatus.queued, progress := 0 },
        { id := 0, imageId := 1, status := QueueStatus.queued, progress := 0 }], true⟩).2 = 2 := by
  decide

/-- C10 (amended): `startProcessing` returns false leaving the state
completely unchanged whenever it fails; under pairwise-distinct queue ids
it returns true exactly when the cap has room and a queued item with the
id exists; on success every item with a different id is untouched and the
id's item moves to `'processing'` with its start time set; and (distinct
ids) the processing count rises by exactly one. -/
theorem startProcessing_spec (id : ℕ) (now : ℤ) (s : ProcessingState) :
    ((startProcessing id now s).1 = false → (startProcessing id now s).2 = s) ∧
    ((s.queue.map (·.id)).Nodup →
      ((startProcessing id now s).1 = true ↔
        getProcessingCount s < MAX_CONCURRENT_PROCESSING ∧
          ∃ it ∈ s.queue, it.id = id ∧ it.status = QueueStatus.queued)) ∧
    ((startProcessing id now s).1 = true →
      List.Forall₂ (fun new old =>
        (old.id ≠ id → new = old) ∧
        (old.id = id → new =
          { old with status := QueueStatus.processing, startTime := some now }))
        (startProcessing id now s).2.queue s.queue) ∧
    ((s.queue.map (·.id)).Nodup → (startProcessing id now s).1 = true →
      getProcessingCount (startProcessing id now s).2 = getProcessingCount s + 1) := by
  refine ⟨?_, ?_, ?_, ?_⟩
  · intro hfalse
    rcases startProcessing_cases id now s with hc | hc
    · rw [hc]
    · rw [hc.1] at hfalse
      cases hfalse
  · intro hnd
    constructor
    · intro htrue
      rcases startProcessing_cases id now s with hc | hc
      · rw [hc] at htrue
        cases htrue
      · obtain ⟨_, hcap, ⟨item, _, hst, hid, hmem⟩, _⟩ := hc
        exact ⟨hcap, item, hmem, hid, hst⟩
    · rintro ⟨hcap, it, hmem, hid, hst⟩
      unfold startProcessing
      rw [if_neg (not_le.mpr hcap)]
      have hsome : (s.queue.find? (fun item => item.id == id)).isSome := by
        rw [List.find?_isSome]
        exact ⟨it, hmem, by simp [hid]⟩
      obtain ⟨item, hfind⟩ := Option.isSome_iff_exists.mp hsome
      have hbeq0 := List.find?_some hfind
      have hbeq : (item.id == id) = true := hbeq0
      have hitemid : item.id = id := by simpa using hbeq
      have hitemmem : item ∈ s.queue := List.mem_of_find?_eq_some hfind
      have hitem_eq : item = it :=
        List.inj_on_of_nodup_map hnd hitemmem hmem (by rw [hitemid, hid])
      have hq : item.status = QueueStatus.queued := by rw [hitem_eq]; exact hst
      rw [hfind]
      dsimp only
      rw [if_neg (not_not_intro hq)]
  · intro htrue
    rcases startProcessing_cases id now s with hc | hc
    · rw [hc] at htrue
      cases htrue
    · rw [hc.2.2.2]
      refine forall₂_map_self _ _ _ (fun a _ => ⟨fun hne => ?_, fun heq => ?_⟩)
      · rw [if_neg hne]
      · rw [if_pos heq]
  · intro hnd htrue
    rcases startProcessing_cases id now s with hc | hc
    · rw [hc] at htrue
      cases htrue
    · obtain ⟨_, _, ⟨item, _, hst, hid, hmem⟩, hq⟩ := hc
      rw [hq, getProcessingCount_eq_countP, getProcessingCount_eq_countP]
      exact countP_start_succ id now s.queue hnd item hmem hid hst

/-- Witness for C10's amended theorem: starting an absent id fails and
leaves the empty store unchanged. -/
theorem startProcessing_spec_witness :
    (startProcessing 5 0 initialProcessingState).2 = initialProcessingState :=
  (startProcessing_spec 5 0 initialProcessingState).1 (by decide)

/-- `updateQueueItem` never changes the ids in the queue. -/
theorem updateQueueItem_map_ids (id : ℕ) (u : QueueItemUpdate) (s : ProcessingState) :
    (updateQueueItem id u s).queue.map (·.id) = s.queue.map (·.id) := by
  unfold updateQueueItem
  rw [List.map_map]
  refine List.map_congr_left (fun a _ => ?_)
  by_cases h : a.id = id
  · simp only [Function.comp_apply, if_pos h]
    rfl
  · simp only [Function.comp_apply, if_neg h]

/-- Every well-formed operation preserves the store invariant. -/
theorem applyOp_invariant (s : ProcessingState) (op : StoreOp)
    (hinv : QueueInvariant s) (hok : OpOk s op) : QueueInvariant (applyOp s op) := by
  obtain ⟨hcount, hnd⟩ := hinv
  cases op with
  | add items =>
      obtain ⟨hq, hndItems, hfresh⟩ := hok
      show QueueInvariant (addToQueue items s)
      constructor
      · rw [getProcessingCount_eq_countP] at hcount ⊢
        show (s.queue ++ items).countP (fun item => item.status == QueueStatus.processing) ≤
          MAX_CONCURRENT_PROCESSING
        rw [List.countP_append]
        have hzero : items.countP (fun item => item.status == QueueStatus.processing) = 0 := by
          rw [List.countP_eq_zero]
          intro a ha
          rw [hq a ha]
          decide
        omega
      · show ((s.queue ++ items).map (·.id)).Nodup
        rw [List.map_append, List.nodup_append]
        refine ⟨hnd, hndItems, fun a haq haItems => ?_⟩
        obtain ⟨it, hit, rfl⟩ := List.mem_map.mp haItems
        exact hfresh it hit haq
  | start id now =>
      show QueueInvariant (startProcessing id now s).2
      rcases startProcessing_cases id now s with hc | hc
      · rw [hc]
        exact ⟨hcount, hnd⟩
      · obtain ⟨_, hcap, ⟨item, _, hst, hid, hmem⟩, hq⟩ := hc
        rw [hq]
        constructor
        · rw [getProcessingCount_eq_countP]
          show (s.queue.map (fun item => if item.id = id then
              { item with status := QueueStatus.processing, startTime := some now }
            else item)).countP (fun item => item.status == QueueStatus.processing) ≤
            MAX_CONCURRENT_PROCESSING
          rw [countP_start_succ id now s.queue hnd item hmem hid hst]
          rw [getProcessingCount_eq_countP] at hcap
          omega
        · show ((s.queue.map (fun item => if item.id = id then
              { item with status := QueueStatus.processing, startTime := some now }
            else item)).map (·.id)).Nodup
          rw [startProcessing_map_ids]
          exact hnd
  | complete id now =>
      show QueueInvariant (updateQueueItem id
        { status := some QueueStatus.complete, progress := some 100, endTime := some now } s)
      constructor
      · rw [getProcessingCount_eq_countP] at hcount ⊢
        show (s.queue.map (fun item => if item.id = id then
            applyUpdate ({ status := some QueueStatus.complete, progress := some 100, endTime := some now } : QueueItemUpdate) item
          else item)).countP (fun item => item.status == QueueStatus.processing) ≤
          MAX_CONCURRENT_PROCESSING
        refine le_trans (countP_map_le _ _ _ ?_) hcount
        intro a _ hpa
        by_cases haid : a.id = id
        · rw [if_pos haid] at hpa
          exact absurd hpa (by simp [applyUpdate])
        · rw [if_neg haid] at hpa
          exact hpa
      · show ((updateQueueItem id ({ status := some QueueStatus.complete, progress := some 100, endTime := some now } : QueueItemUpdate) s).queue.map (·.id)).Nodup
        rw [updateQueueItem_map_ids]
        exact hnd
  | remove id =>
      show QueueInvariant (removeFromQueue id s)
      constructor
      · rw [getProcessingCount_eq_countP] at hcount ⊢
        show (s.queue.filter (fun item => item.id ≠ id)).countP
          (fun item => item.status == QueueStatus.processing) ≤ MAX_CONCURRENT_PROCESSING
        exact le_trans (List.Sublist.countP_le _ (List.filter_sublist _)) hcount
      · show ((s.queue.filter (fun item => item.id ≠ id)).map (·.id)).Nodup
        exact List.Nodup.sublist (List.Sublist.map _ (List.filter_sublist _)) hnd
  | clear =>
      show QueueInvariant (clearQueue s)
      refine ⟨?_, ?_⟩
      · show getProcessingCount ⟨[], false⟩ ≤ MAX_CONCURRENT_PROCESSING
        decide
      · show (([] : List ProcessingQueueItem).map (·.id)).Nodup
        exact List.nodup_nil

/-- Well-formed operation sequences preserve the store invariant. -/
theorem applyOps_invariant : ∀ (ops : List StoreOp) (s : ProcessingState),
    QueueInvariant s → SafeOps s ops → QueueInvariant (applyOps s ops) := by
  intro ops
  induction ops with
  | nil => exact fun s hinv _ => hinv
  | cons op ops ih =>
      intro s hinv hsafe
      exact ih (applyOp s op) (applyOp_invariant s op hinv hsafe.1) hsafe.2

/-- Prefixes of well-formed operation sequences are well-formed. -/
theorem safeOps_take : ∀ (ops : List StoreOp) (s : ProcessingState) (k : ℕ),
    SafeOps s ops → SafeOps s (ops.take k) := by
  intro ops
  induction ops with
  | nil => intro s k _; rw [List.take_nil]; trivial
  | cons op ops ih =>
      intro s k hsafe
      cases k with
      | zero => trivial
      | succ k => exact ⟨hsafe.1, ih (applyOp s op) k hsafe.2⟩

/-- C1 counterexample: `addToQueue` does not deduplicate ids and
`startProcessing`'s success path maps EVERY item with the target id to
`'processing'`.  Enqueuing five queued items that share an id and then
calling `startProcessing` once yields five `'processing'` items — the cap
of 4 is exceeded by a sequence of the claim's own operations. -/
theorem processing_cap_counterexample :
    getProcessingCount (applyOps initialProcessingState
      [StoreOp.add (List.replicate 5
        { id := 0, imageId := 0, status := QueueStatus.queued, progress := 0 }),
       StoreOp.start 0 0]) = 5 ∧ MAX_CONCURRENT_PROCESSING < 5 := by
  decide

/-- C1 (amended): under well-formed operation sequences — every
`addToQueue` enqueues `'queued'` items with fresh pairwise-distinct ids,
as every caller in the source does — the number of `'processing'` items
never exceeds `MAX_CONCURRENT_PROCESSING` = 4 at any point, and after
enqueuing 20 items and attempting to start all 20, exactly 4 are
`'processing'` at once. -/
theorem processing_cap_invariant :
    (∀ (ops : List StoreOp), SafeOps initialProcessingState ops →
      ∀ k : ℕ, getProcessingCount (applyOps initialProcessingState (ops.take k)) ≤
        MAX_CONCURRENT_PROCESSING) ∧
    getProcessingCount (applyOps initialProcessingState twentyOps) =
      MAX_CONCURRENT_PROCESSING := by
  constructor
  · intro ops hsafe k
    exact (applyOps_invariant (ops.take k) initialProcessingState
      ⟨by decide, List.nodup_nil⟩ (safeOps_take ops initialProcessingState k hsafe)).1
  · decide

/-- Witness for C1's amended theorem: the 21-step saturation scenario is a
well-formed sequence and every prefix respects the cap. -/
theorem processing_cap_invariant_witness :
    getProcessingCount (applyOps initialProcessingState (twentyOps.take 21)) ≤
      MAX_CONCURRENT_PROCESSING :=
  processing_cap_invariant.1 twentyOps (by decide) 21

/-! ## C2: history cap and FIFO eviction -/

/-- With pairwise-distinct ids, filtering out one member's id removes
exactly that one entry. -/
theorem length_filter_out_id (db : List CompressionHistoryEntry)
    (x : CompressionHistoryEntry) (hnd : (db.map (·.id)).Nodup) (hmem : x ∈ db) :
    (db.filter (fun e => !(x.id == e.id))).length = db.length - 1 := by
  induction db with
  | nil => cases hmem
  | cons y ys ih =>
      simp only [List.map_cons, List.nodup_cons] at hnd
      obtain ⟨hy, hnd'⟩ := hnd
      rcases List.mem_cons.mp hmem with rfl | hxys
      · rw [List.filter_cons]
        have hpy : (!(x.id == x.id)) = false := by simp
        rw [hpy]
        simp only [Bool.false_eq_true, if_false]
        have hkeep : ys.filter (fun e => !(x.id == e.id)) = ys := by
          rw [List.filter_eq_self]
          intro e he
          have : x.id ≠ e.id := fun heq =>
            hy (heq ▸ List.mem_map_of_mem (·.id) he)
          simp [this]
        rw [hkeep]
        simp
      · have hxy : x.id ≠ y.id := by
          intro heq
          exact hy (heq ▸ List.mem_map_of_mem (·.id) hxys)
        rw [List.filter_cons]
        have hpy : (!(x.id == y.id)) = true := by simp [hxy]
        rw [hpy]
        simp only [if_true]
        rw [List.length_cons, ih hnd' hxys]
        have hpos : 0 < ys.length := List.length_pos_of_mem hxys
        have hlen2 : (y :: ys).length = ys.length + 1 := by simp
        omega

/-- Under the cap with a fresh id, `addHistoryEntry` appends the entry. -/
theorem addHistoryEntry_under (db : List CompressionHistoryEntry)
    (entry : CompressionHistoryEntry) (hlt : db.length < MAX_HISTORY_ENTRIES)
    (hfresh : entry.id ∉ db.map (·.id)) :
    addHistoryEntry entry db = (true, db ++ [entry]) := by
  unfold addHistoryEntry
  dsimp only
  rw [if_neg (not_le.mpr hlt)]
  rw [if_neg ?hany]
  case hany =>
    intro hany
    rw [List.any_eq_true] at hany
    obtain ⟨e, hemem, hbeq⟩ := hany
    have heid : e.id = entry.id := by simpa using hbeq
    exact hfresh (heid ▸ List.mem_map_of_mem (·.id) hemem)

/-- At the cap with distinct ids and a fresh id, `addHistoryEntry` evicts
exactly the index-first (oldest) entry and appends the new one. -/
theorem addHistoryEntry_full_eq (db : List CompressionHistoryEntry)
    (entry : CompressionHistoryEntry) (h100 : db.length = MAX_HISTORY_ENTRIES)
    (_hnd : (db.map (·.id)).Nodup) (hfresh : entry.id ∉ db.map (·.id)) :
    ∃ hd tl, byTimestampIndex db = hd :: tl ∧ hd ∈ db ∧
      (∀ e ∈ db, hd.timestamp ≤ e.timestamp) ∧
      addHistoryEntry entry db = (true, db.filter (fun e => !(hd.id == e.id)) ++ [entry]) := by
  obtain ⟨hd, tl, hsort⟩ : ∃ hd tl, byTimestampIndex db = hd :: tl := by
    cases hbt : byTimestampIndex db with
    | nil =>
        exfalso
        have hlen := (byTimestampIndex_perm db).length_eq
        rw [hbt, h100] at hlen
        cases hlen
    | cons hd tl => exact ⟨hd, tl, rfl⟩
  have hdmem : hd ∈ db :=
    (byTimestampIndex_perm db).mem_iff.mp (hsort ▸ List.mem_cons_self hd tl)
  have hdmin : ∀ e ∈ db, hd.timestamp ≤ e.timestamp := by
    intro e he
    have he' : e ∈ byTimestampIndex db := (byTimestampIndex_perm db).mem_iff.mpr he
    rw [hsort] at he'
    rcases List.mem_cons.mp he' with rfl | he''
    · exact le_refl _
    · have hsorted := byTimestampIndex_sorted db
      rw [hsort] at hsorted
      rcases List.rel_of_sorted_cons hsorted e he'' with hlt | ⟨heq, _⟩
      · exact le_of_lt hlt
      · exact le_of_eq heq
  refine ⟨hd, tl, hsort, hdmem, hdmin, ?_⟩
  unfold addHistoryEntry
  dsimp only
  rw [if_pos h100.ge]
  have hdel : db.length - MAX_HISTORY_ENTRIES + 1 = 1 := by
    rw [h100]
    decide
  rw [hdel, hsort]
  rw [show List.take 1 (hd :: tl) = [hd] from rfl]
  have hfn : (fun e => !([hd].any (fun d => d.id == e.id))) =
      (fun e : CompressionHistoryEntry => !(hd.id == e.id)) := by
    funext e
    simp
  rw [hfn]
  rw [if_neg ?hany]
  case hany =>
    intro hany
    rw [List.any_eq_true] at hany
    obtain ⟨e, hemem, hbeq⟩ := hany
    have heid : e.id = entry.id := by simpa using hbeq
    exact hfresh (heid ▸ List.mem_map_of_mem (·.id) (List.mem_of_mem_filter hemem))

/-- One insert with a fresh id keeps the store at or under the cap,
preserves distinctness of ids, and introduces no id besides the new one. -/
theorem addHistoryEntry_step (db : List CompressionHistoryEntry)
    (entry : CompressionHistoryEntry) (hle : db.length ≤ MAX_HISTORY_ENTRIES)
    (hnd : (db.map (·.id)).Nodup) (hfresh : entry.id ∉ db.map (·.id)) :
    (addHistoryEntry entry db).2.length ≤ MAX_HISTORY_ENTRIES ∧
    ((addHistoryEntry entry db).2.map (·.id)).Nodup ∧
    ∀ i ∈ (addHistoryEntry entry db).2.map (·.id), i ∈ db.map (·.id) ∨ i = entry.id := by
  rcases lt_or_eq_of_le hle with hlt | heq
  · rw [addHistoryEntry_under db entry hlt hfresh]
    refine ⟨?_, ?_, ?_⟩
    · rw [List.length_append]
      simpa using hlt
    · rw [List.map_append, List.nodup_append]
      refine ⟨hnd, List.nodup_singleton _, fun a ha hb => ?_⟩
      have hbeq : a = entry.id := List.mem_singleton.mp hb
      exact hfresh (hbeq ▸ ha)
    · intro i hi
      rw [List.map_append, List.mem_append] at hi
      rcases hi with hi | hi
      · exact Or.inl hi
      · have hieq : i = entry.id := List.mem_singleton.mp hi
        exact Or.inr hieq
  · obtain ⟨hd, tl, _, hdmem, _, heqadd⟩ := addHistoryEntry_full_eq db entry heq hnd hfresh
    rw [heqadd]
    have hsub : (db.filter (fun e => !(hd.id == e.id))).Sublist db := List.filter_sublist _
    have hndf : ((db.filter (fun e => !(hd.id == e.id))).map (·.id)).Nodup :=
      List.Nodup.sublist (List.Sublist.map _ hsub) hnd
    refine ⟨?_, ?_, ?_⟩
    · rw [List.length_append, length_filter_out_id db hd hnd hdmem, heq,
        List.length_singleton]
      decide
    · rw [List.map_append, List.nodup_append]
      refine ⟨hndf, List.nodup_singleton _, fun a ha hb => ?_⟩
      have hbeq : a = entry.id := List.mem_singleton.mp hb
      rw [hbeq] at ha
      obtain ⟨e, he, heid⟩ := List.mem_map.mp ha
      have heid2 : e.id = entry.id := heid
      exact hfresh (heid2 ▸ List.mem_map_of_mem (·.id) (List.mem_of_mem_filter he))
    · intro i hi
      rw [List.map_append, List.mem_append] at hi
      rcases hi with hi | hi
      · obtain ⟨e, he, heid⟩ := List.mem_map.mp hi
        exact Or.inl (heid ▸ List.mem_map_of_mem (·.id) (List.mem_of_mem_filter he))
      · have hieq : i = entry.id := List.mem_singleton.mp hi
        exact Or.inr hieq

/-- Every prefix of a distinct-id insert sequence keeps the store at or
under the cap. -/
theorem runInserts_take_le (es : List CompressionHistoryEntry) :
    ∀ (db : List CompressionHistoryEntry) (k : ℕ),
    (db.map (·.id) ++ es.map (·.id)).Nodup → db.length ≤ MAX_HISTORY_ENTRIES →
    (runInserts (es.take k) db).length ≤ MAX_HISTORY_ENTRIES := by
  induction es with
  | nil =>
      intro db k _ hle
      rw [List.take_nil]
      exact hle
  | cons e es ih =>
      intro db k hnd hle
      cases k with
      | zero => exact hle
      | succ k =>
          rw [List.map_cons, List.nodup_append] at hnd
          obtain ⟨hnd_db, hnd_cons, hdisj⟩ := hnd
          rw [List.nodup_cons] at hnd_cons
          obtain ⟨hees, hnd_es⟩ := hnd_cons
          have hfresh : e.id ∉ db.map (·.id) := fun hmem =>
            hdisj hmem (List.mem_cons_self _ _)
          obtain ⟨hlen', hnd', hsub'⟩ := addHistoryEntry_step db e hle hnd_db hfresh
          show (runInserts (es.take k) (addHistoryEntry e db).2).length ≤ MAX_HISTORY_ENTRIES
          refine ih (addHistoryEntry e db).2 k ?_ hlen'
          rw [List.nodup_append]
          refine ⟨hnd', hnd_es, fun a ha hb => ?_⟩
          rcases hsub' a ha with hadb | haid
          · exact hdisj hadb (List.mem_cons_of_mem _ hb)
          · exact hees (haid ▸ hb)

set_option maxRecDepth 10000 in
set_option maxHeartbeats 1000000 in
/-- C2 counterexample: after filling the store with 100 distinct entries
(ids = timestamps = 0..99), inserting a 101st entry whose id collides with
a surviving entry makes `store.add` fail; the transaction aborts, rolling
back the eviction, so the store is unchanged: the newly inserted entry is
absent and the smallest-timestamp entry (id 0) is still present — refuting
the claim for insert sequences with duplicate ids. -/
theorem history_duplicate_id_counterexample :
    (addHistoryEntry duplicateIdEntry fullHistoryDb).1 = false ∧
    (addHistoryEntry duplicateIdEntry fullHistoryDb).2 = fullHistoryDb ∧
    duplicateIdEntry ∉ (addHistoryEntry duplicateIdEntry fullHistoryDb).2 ∧
    (⟨0, 0, "img", 1, 1, OutputFormat.webp, 70⟩ : CompressionHistoryEntry) ∈
      (addHistoryEntry duplicateIdEntry fullHistoryDb).2 ∧
    fullHistoryDb.length = MAX_HISTORY_ENTRIES := by
  decide

/-- C2 (amended): for insert sequences with pairwise-distinct ids (as the
callers' UUID ids guarantee), the store count stays ≤ 100 after every
insert; and at a full store an insert with a fresh id succeeds, leaves
exactly 100 entries, contains the new entry, and evicts exactly one
oldest-timestamp entry (every other entry survives). -/
theorem addHistoryEntry_cap_eviction :
    (∀ (es : List CompressionHistoryEntry), (es.map (·.id)).Nodup → es.length ≤ 150 →
      ∀ k : ℕ, (runInserts (es.take k) []).length ≤ MAX_HISTORY_ENTRIES) ∧
    (∀ (db : List CompressionHistoryEntry) (entry : CompressionHistoryEntry),
      db.length = MAX_HISTORY_ENTRIES → (db.map (·.id)).Nodup →
      entry.id ∉ db.map (·.id) →
      (addHistoryEntry entry db).1 = true ∧
      (addHistoryEntry entry db).2.length = MAX_HISTORY_ENTRIES ∧
      entry ∈ (addHistoryEntry entry db).2 ∧
      ∃ old ∈ db, (∀ e ∈ db, old.timestamp ≤ e.timestamp) ∧
        old ∉ (addHistoryEntry entry db).2 ∧
        ∀ e ∈ db, e.id ≠ old.id → e ∈ (addHistoryEntry entry db).2) := by
  constructor
  · intro es hnd _ k
    exact runInserts_take_le es [] k (by simpa using hnd) (by simp)
  · intro db entry h100 hnd hfresh
    obtain ⟨hd, tl, _, hdmem, hdmin, heqadd⟩ := addHistoryEntry_full_eq db entry h100 hnd hfresh
    rw [heqadd]
    refine ⟨rfl, ?_, ?_, hd, hdmem, hdmin, ?_, ?_⟩
    · rw [List.length_append, length_filter_out_id db hd hnd hdmem, h100,
        List.length_singleton]
      decide
    · exact List.mem_append.mpr (Or.inr (List.mem_singleton.mpr rfl))
    · intro hmem
      rcases List.mem_append.mp hmem with hmem | hmem
      · have := List.of_mem_filter hmem
        simp at this
      · have : hd = entry := List.mem_singleton.mp hmem
        exact hfresh (this ▸ List.mem_map_of_mem (·.id) hdmem)
    · intro e he hne
      refine List.mem_append.mpr (Or.inl (List.mem_filter.mpr ⟨he, ?_⟩))
      simp [Ne.symm hne]

set_option maxRecDepth 10000 in
set_option maxHeartbeats 1000000 in
/-- Witness for C2's amended theorem: inserting a fresh 101st entry into a
full 100-entry store succeeds. -/
theorem addHistoryEntry_cap_eviction_witness :
    (addHistoryEntry ⟨100, 100, "new", 1, 1, OutputFormat.webp, 70⟩ hundredEntries).1 = true :=
  (addHistoryEntry_cap_eviction.2 hundredEntries
    ⟨100, 100, "new", 1, 1, OutputFormat.webp, 70⟩ (by decide) (by decide) (by decide)).1

end Compressorx
